import Mathlib

/-
Verification of the ufw repository's ring-buffer index walker
(src/c/ring-buffer-iter.c) and range validator (src/c++/Validator.h).

The C struct rb_iter has fields mode, index, size and steps (all index
fields are size_t, an unsigned machine integer of some width w >= 1).
We embed the state as a structure over Nat and make the one place where
unsigned wraparound can occur explicit: the `iter->steps--` decrement in
rb_iter_advance is modelled as addition of 2^w - 1 modulo 2^w, which
agrees with Nat subtraction whenever steps > 0 and wraps to 2^w - 1 when
steps = 0.  The additions on `index` cannot overflow a size_t whenever
index < size (a size_t value satisfies size <= 2^w - 1), so they are
written as plain Nat arithmetic exactly as in the source.
-/

namespace Ufw

/-- The two traversal directions of the walker (enum in ring-buffer-iter.h,
used by the switch in rb_iter_advance). -/
inductive RbIterMode where
  | oldToNew
  | newToOld
  deriving DecidableEq

/-- State of the C struct rb_iter: traversal mode, current index, buffer
size (capacity) and remaining steps. -/
structure RbIter where
  mode : RbIterMode
  index : Nat
  size : Nat
  steps : Nat
  deriving DecidableEq

/-- Embedding of rb_iter_done: `return (iter->steps == 0);` -/
def rb_iter_done (iter : RbIter) : Bool :=
  iter.steps == 0

/-- Embedding of rb_iter_advance for a machine word of width w.
The switch on mode computes the new index:
`iter->index = (iter->index + 1) % iter->size;` for OLD_TO_NEW and
`iter->index = (iter->index == 0) ? iter->size - 1 : iter->index - 1;`
for NEW_TO_OLD.  Then `iter->steps--;` (unsigned: subtraction of 1
modulo 2^w) and `return iter->index;`. -/
def rb_iter_advance (w : Nat) (iter : RbIter) : RbIter × Nat :=
  let index' :=
    match iter.mode with
    | RbIterMode.oldToNew => (iter.index + 1) % iter.size
    | RbIterMode.newToOld =>
        if iter.index == 0 then iter.size - 1 else iter.index - 1
  let steps' := (iter.steps + (2 ^ w - 1)) % 2 ^ w
  ({ iter with index := index', steps := steps' }, index')

/-- The walker after n successive calls to rb_iter_advance. -/
def iterateAdvance (w : Nat) (iter : RbIter) : Nat → RbIter
  | 0 => iter
  | n + 1 => (rb_iter_advance w (iterateAdvance w iter n)).1

/-- Embedding of the C++ RangeValidator class: the constructor stores the
min and max bounds. -/
structure RangeValidator (T : Type) where
  min : T
  max : T

/-- Embedding of RangeValidator::operator(): `return v >= min && v <= max;`
for any type T with decidable <= (the C++ template requires <= and >=). -/
def RangeValidator.apply {T : Type} [LE T]
    [DecidableRel (fun a b : T => a ≤ b)]
    (rv : RangeValidator T) (v : T) : Bool :=
  decide (rv.min ≤ v) && decide (v ≤ rv.max)

theorem advance_size (w : Nat) (iter : RbIter) :
    (rb_iter_advance w iter).1.size = iter.size := rfl

theorem advance_mode (w : Nat) (iter : RbIter) :
    (rb_iter_advance w iter).1.mode = iter.mode := rfl

theorem iterate_size (w : Nat) (iter : RbIter) (n : Nat) :
    (iterateAdvance w iter n).size = iter.size := by
  induction n with
  | zero => rfl
  | succ n ih => rw [iterateAdvance, advance_size, ih]

theorem iterate_mode (w : Nat) (iter : RbIter) (n : Nat) :
    (iterateAdvance w iter n).mode = iter.mode := by
  induction n with
  | zero => rfl
  | succ n ih => rw [iterateAdvance, advance_mode, ih]

theorem advance_index_lt (w : Nat) (iter : RbIter)
    (hs : 0 < iter.size) (hi : iter.index < iter.size) :
    (rb_iter_advance w iter).1.index < iter.size := by
  obtain ⟨m, i, s, st⟩ := iter
  cases m with
  | oldToNew =>
      simpa [rb_iter_advance] using Nat.mod_lt (i + 1) hs
  | newToOld =>
      simp only [rb_iter_advance]
      by_cases h0 : i = 0
      · simp only [h0]
        simpa using Nat.sub_lt hs Nat.one_pos
      · rw [if_neg (by simpa using h0)]
        exact lt_of_le_of_lt (Nat.sub_le i 1) hi

theorem iterate_index_lt (w : Nat) (iter : RbIter) (n : Nat)
    (hs : 0 < iter.size) (hi : iter.index < iter.size) :
    (iterateAdvance w iter n).index < iter.size := by
  induction n with
  | zero => exact hi
  | succ n ih =>
      have hs' : 0 < (iterateAdvance w iter n).size := by
        rw [iterate_size]; exact hs
      have hi' : (iterateAdvance w iter n).index <
          (iterateAdvance w iter n).size := by
        rw [iterate_size]; exact ih
      have := advance_index_lt w (iterateAdvance w iter n) hs' hi'
      rw [iterate_size] at this
      rw [iterateAdvance]
      exact this

theorem advance_ret (w : Nat) (iter : RbIter) :
    (rb_iter_advance w iter).2 = (rb_iter_advance w iter).1.index := rfl

theorem advance_steps (w : Nat) (iter : RbIter) :
    (rb_iter_advance w iter).1.steps =
      (iter.steps + (2 ^ w - 1)) % 2 ^ w := rfl

theorem advance_index_oldToNew (w : Nat) (iter : RbIter)
    (hm : iter.mode = RbIterMode.oldToNew) :
    (rb_iter_advance w iter).1.index = (iter.index + 1) % iter.size := by
  obtain ⟨m, i, s, st⟩ := iter
  cases m with
  | oldToNew => rfl
  | newToOld => cases hm

theorem advance_index_newToOld (w : Nat) (iter : RbIter)
    (hm : iter.mode = RbIterMode.newToOld) :
    (rb_iter_advance w iter).1.index =
      if iter.index == 0 then iter.size - 1 else iter.index - 1 := by
  obtain ⟨m, i, s, st⟩ := iter
  cases m with
  | oldToNew => cases hm
  | newToOld => rfl

theorem steps_iterate (w : Nat) (iter : RbIter) (n : Nat)
    (hn : iter.steps = n) (hw : n < 2 ^ w) :
    ∀ k, k ≤ n → (iterateAdvance w iter k).steps = n - k := by
  intro k
  induction k with
  | zero => intro _; simpa [iterateAdvance] using hn
  | succ k ih =>
      intro hk
      have hprev := ih (by omega)
      have hpw : 0 < 2 ^ w := pow_pos (by omega) w
      rw [iterateAdvance, advance_steps, hprev]
      have h1 : n - k + (2 ^ w - 1) = (n - (k + 1)) + 2 ^ w := by omega
      rw [h1, Nat.add_mod_right, Nat.mod_eq_of_lt (by omega)]

theorem oldToNew_iterate_index (w : Nat) (iter : RbIter) (n : Nat)
    (hm : iter.mode = RbIterMode.oldToNew) (hi : iter.index < iter.size) :
    (iterateAdvance w iter n).index = (iter.index + n) % iter.size := by
  induction n with
  | zero => simpa [iterateAdvance] using (Nat.mod_eq_of_lt hi).symm
  | succ n ih =>
      rw [iterateAdvance]
      have hm' : (iterateAdvance w iter n).mode = RbIterMode.oldToNew := by
        rw [iterate_mode]; exact hm
      rw [advance_index_oldToNew w _ hm', iterate_size, ih,
        Nat.mod_add_mod, Nat.add_assoc]

/-- Claim C1: for every walker with capacity >= 1 and position in
[0, capacity), after any number of advances the next advance both returns
an index in [0, capacity) and leaves the stored index in [0, capacity). -/
theorem rb_iter_advance_in_range (w : Nat) (iter : RbIter) (n : Nat)
    (hs : 0 < iter.size) (hi : iter.index < iter.size) :
    (rb_iter_advance w (iterateAdvance w iter n)).2 < iter.size ∧
    (rb_iter_advance w (iterateAdvance w iter n)).1.index < iter.size := by
  have h := iterate_index_lt w iter (n + 1) hs hi
  rw [iterateAdvance] at h
  exact ⟨h, h⟩

/-- Witness for C1 at a concrete walker (capacity 5, start 2, 3 prior
advances). -/
theorem rb_iter_advance_in_range_witness :
    (rb_iter_advance 8
      (iterateAdvance 8 ⟨RbIterMode.oldToNew, 2, 5, 7⟩ 3)).2 <
      (⟨RbIterMode.oldToNew, 2, 5, 7⟩ : RbIter).size ∧
    (rb_iter_advance 8
      (iterateAdvance 8 ⟨RbIterMode.oldToNew, 2, 5, 7⟩ 3)).1.index <
      (⟨RbIterMode.oldToNew, 2, 5, 7⟩ : RbIter).size :=
  rb_iter_advance_in_range 8 ⟨RbIterMode.oldToNew, 2, 5, 7⟩ 3
    (by decide) (by decide)

/-- Claim C2: in OldToNew direction with capacity >= 1 and position in
[0, capacity), advance sets the position to (position + 1) mod capacity
and returns that value. -/
theorem rb_iter_advance_oldToNew_spec (w : Nat) (iter : RbIter)
    (hm : iter.mode = RbIterMode.oldToNew) (hs : 0 < iter.size)
    (hi : iter.index < iter.size) :
    (rb_iter_advance w iter).1.index = (iter.index + 1) % iter.size ∧
    (rb_iter_advance w iter).2 = (iter.index + 1) % iter.size := by
  have h := advance_index_oldToNew w iter hm
  exact ⟨h, (advance_ret w iter).trans h⟩

/-- Witness for C2: capacity 5, position 4, OldToNew: advance returns 0. -/
theorem rb_iter_advance_oldToNew_spec_witness :
    (rb_iter_advance 64 ⟨RbIterMode.oldToNew, 4, 5, 3⟩).2 = 0 :=
  ((rb_iter_advance_oldToNew_spec 64 ⟨RbIterMode.oldToNew, 4, 5, 3⟩
    rfl (by decide) (by decide)).2).trans (by decide)

/-- Claim C3: in NewToOld direction with capacity >= 1 and position in
[0, capacity), advance sets the position to capacity - 1 when position = 0
and to position - 1 otherwise, and returns that value. -/
theorem rb_iter_advance_newToOld_spec (w : Nat) (iter : RbIter)
    (hm : iter.mode = RbIterMode.newToOld) (hs : 0 < iter.size)
    (hi : iter.index < iter.size) :
    (rb_iter_advance w iter).1.index =
      (if iter.index = 0 then iter.size - 1 else iter.index - 1) ∧
    (rb_iter_advance w iter).2 =
      (if iter.index = 0 then iter.size - 1 else iter.index - 1) := by
  have h := advance_index_newToOld w iter hm
  have h2 : (if iter.index == 0 then iter.size - 1 else iter.index - 1)
      = (if iter.index = 0 then iter.size - 1 else iter.index - 1) := by
    by_cases h0 : iter.index = 0 <;> simp [h0]
  rw [h2] at h
  exact ⟨h, (advance_ret w iter).trans h⟩

/-- Witness for C3: capacity 5, position 0, NewToOld: advance returns 4. -/
theorem rb_iter_advance_newToOld_spec_witness :
    (rb_iter_advance 64 ⟨RbIterMode.newToOld, 0, 5, 3⟩).2 = 4 :=
  ((rb_iter_advance_newToOld_spec 64 ⟨RbIterMode.newToOld, 0, 5, 3⟩
    rfl (by decide) (by decide)).2).trans (by decide)

/-- Claim C4: with steps = step_count < 2^w, advance called exactly
step_count times leaves the walker Exhausted; is_exhausted is false before
each of those calls and true only after the last one, and each advance
decrements the remaining count by exactly one. -/
theorem rb_iter_exhaustion_after_step_count (w : Nat) (iter : RbIter)
    (n : Nat) (hn : iter.steps = n) (hw : n < 2 ^ w) :
    (∀ k, k < n → rb_iter_done (iterateAdvance w iter k) = false) ∧
    rb_iter_done (iterateAdvance w iter n) = true ∧
    (∀ k, k < n → (iterateAdvance w iter (k + 1)).steps + 1 =
      (iterateAdvance w iter k).steps) := by
  have hst := steps_iterate w iter n hn hw
  refine ⟨?_, ?_, ?_⟩
  · intro k hk
    have h := hst k (by omega)
    simp only [rb_iter_done, h, beq_eq_false_iff_ne, ne_eq]
    omega
  · have h := hst n (by omega)
    simp only [rb_iter_done, h, beq_iff_eq]
    omega
  · intro k hk
    rw [hst k (by omega), hst (k + 1) (by omega)]
    omega

/-- Witness for C4: an OldToNew walker of capacity 3 with 4 steps is not
exhausted after 3 advances, is exhausted after 4, and the fourth advance
decrements the remaining count from 1 to 0. -/
theorem rb_iter_exhaustion_after_step_count_witness :
    rb_iter_done (iterateAdvance 8 ⟨RbIterMode.oldToNew, 0, 3, 4⟩ 3)
      = false ∧
    rb_iter_done (iterateAdvance 8 ⟨RbIterMode.oldToNew, 0, 3, 4⟩ 4)
      = true ∧
    (iterateAdvance 8 ⟨RbIterMode.oldToNew, 0, 3, 4⟩ 4).steps + 1 =
      (iterateAdvance 8 ⟨RbIterMode.oldToNew, 0, 3, 4⟩ 3).steps := by
  have h := rb_iter_exhaustion_after_step_count 8
    ⟨RbIterMode.oldToNew, 0, 3, 4⟩ 4 rfl (by decide)
  exact ⟨h.1 3 (by decide), h.2.1, h.2.2 3 (by decide)⟩

/-- Claim C5 counterexample: the claim says that across every sequence of
operations the remaining count only decreases and Exhausted is terminal,
but advancing an exhausted walker (steps = 0, here with word width 8)
wraps steps up to 255, an increase. -/
theorem rb_iter_steps_wrap_counterexample :
    (rb_iter_advance 8 ⟨RbIterMode.oldToNew, 0, 1, 0⟩).1.steps = 255 ∧
    (⟨RbIterMode.oldToNew, 0, 1, 0⟩ : RbIter).steps <
      (rb_iter_advance 8 ⟨RbIterMode.oldToNew, 0, 1, 0⟩).1.steps := by
  decide

/-- Claim C5 (amended): as long as advance is only called on a
non-exhausted walker (the caller contract), each advance decreases the
remaining count by exactly one, so it strictly decreases and, being a
natural number, never goes negative; is_exhausted never modifies the
state, so once steps = 0 the walker stays Exhausted under queries. -/
theorem rb_iter_steps_decrease_amended (w : Nat) (iter : RbIter)
    (hlt : iter.steps < 2 ^ w) (hact : rb_iter_done iter = false) :
    (rb_iter_advance w iter).1.steps + 1 = iter.steps ∧
    (rb_iter_advance w iter).1.steps < iter.steps := by
  have hpos : 0 < iter.steps := by
    simp only [rb_iter_done, beq_eq_false_iff_ne, ne_eq] at hact
    omega
  have hpw : 0 < 2 ^ w := pow_pos (by omega) w
  have h1 : iter.steps + (2 ^ w - 1) = (iter.steps - 1) + 2 ^ w := by
    omega
  rw [advance_steps, h1, Nat.add_mod_right, Nat.mod_eq_of_lt (by omega)]
  omega

/-- Witness for the amended C5 at a concrete active walker (3 steps
remaining, word width 8): advance takes the count from 3 to 2. -/
theorem rb_iter_steps_decrease_amended_witness :
    (rb_iter_advance 8 ⟨RbIterMode.oldToNew, 0, 1, 3⟩).1.steps + 1 =
      (⟨RbIterMode.oldToNew, 0, 1, 3⟩ : RbIter).steps ∧
    (rb_iter_advance 8 ⟨RbIterMode.oldToNew, 0, 1, 3⟩).1.steps <
      (⟨RbIterMode.oldToNew, 0, 1, 3⟩ : RbIter).steps :=
  rb_iter_steps_decrease_amended 8 ⟨RbIterMode.oldToNew, 0, 1, 3⟩
    (by decide) (by decide)

/-- Claim C6: is_exhausted returns true iff steps = 0 (and false iff
steps > 0); it is a pure query, embedded as a function of the state that
produces no new state, so repeated calls on the same state always return
the same answer. -/
theorem rb_iter_done_iff_steps_zero (iter : RbIter) :
    (rb_iter_done iter = true ↔ iter.steps = 0) ∧
    (rb_iter_done iter = false ↔ 0 < iter.steps) := by
  constructor
  · simp [rb_iter_done]
  · simp only [rb_iter_done, beq_eq_false_iff_ne, ne_eq]
    omega

/-- Claim C7: full-cycle closure: for capacity > 1 and any start p in
[0, capacity), an OldToNew walker is back at position p after exactly
capacity advances. -/
theorem rb_iter_full_cycle (w c p s : Nat) (hc : 1 < c) (hp : p < c) :
    (iterateAdvance w ⟨RbIterMode.oldToNew, p, c, s⟩ c).index = p := by
  have h := oldToNew_iterate_index w ⟨RbIterMode.oldToNew, p, c, s⟩ c
    rfl hp
  rw [h]
  show (p + c) % c = p
  rw [Nat.add_mod_right]
  exact Nat.mod_eq_of_lt hp

/-- Witness for C7: capacity 5, start 2: back at 2 after 5 advances. -/
theorem rb_iter_full_cycle_witness :
    (iterateAdvance 8 ⟨RbIterMode.oldToNew, 2, 5, 9⟩ 5).index = 2 :=
  rb_iter_full_cycle 8 5 2 9 (by decide) (by decide)

/-- Claim C8: directional inverse: one OldToNew advance from p, followed
by one NewToOld advance of an independent walker starting at the result,
returns p, for any capacity > 0 and any p in [0, capacity). -/
theorem rb_iter_directional_inverse (w c p s t : Nat)
    (hc : 0 < c) (hp : p < c) :
    (rb_iter_advance w ⟨RbIterMode.newToOld,
      (rb_iter_advance w ⟨RbIterMode.oldToNew, p, c, s⟩).2, c, t⟩).2
      = p := by
  have h2 : (rb_iter_advance w ⟨RbIterMode.oldToNew, p, c, s⟩).2
      = (p + 1) % c := rfl
  rw [h2]
  show (if (p + 1) % c == 0 then c - 1 else (p + 1) % c - 1) = p
  rcases Nat.lt_or_ge (p + 1) c with h | h
  · rw [Nat.mod_eq_of_lt h]
    rw [if_neg (by simp)]
    omega
  · have hpc : p + 1 = c := by omega
    rw [hpc, Nat.mod_self]
    simp only [beq_self_eq_true, if_true]
    omega

/-- Witness for C8: capacity 5, p = 4: forward advance wraps to 0, the
backward advance wraps back to 4. -/
theorem rb_iter_directional_inverse_witness :
    (rb_iter_advance 8 ⟨RbIterMode.newToOld,
      (rb_iter_advance 8 ⟨RbIterMode.oldToNew, 4, 5, 1⟩).2, 5, 1⟩).2
      = 4 :=
  rb_iter_directional_inverse 8 5 4 1 1 (by decide) (by decide)

/-- Claim C9: RangeValidator(min, max) applied to v returns true iff
v >= min and v <= max, for any type with a decidable order: both limits
are included. -/
theorem RangeValidator_inclusive {T : Type} [LE T]
    [DecidableRel (fun a b : T => a ≤ b)]
    (rv : RangeValidator T) (v : T) :
    RangeValidator.apply rv v = true ↔ (rv.min ≤ v ∧ v ≤ rv.max) := by
  simp [RangeValidator.apply]

/-- Claim C10: calling advance on an already-exhausted walker (steps = 0,
word width w >= 1) wraps the unsigned decrement to 2^w - 1, so the walker
appears Active again (is_exhausted returns false) with 2^w - 1 remaining;
the position is still updated and the returned index is in range. -/
theorem rb_iter_advance_exhausted_wraps (w : Nat) (iter : RbIter)
    (hw : 0 < w) (h0 : iter.steps = 0) (hs : 0 < iter.size)
    (hi : iter.index < iter.size) :
    (rb_iter_advance w iter).1.steps = 2 ^ w - 1 ∧
    rb_iter_done (rb_iter_advance w iter).1 = false ∧
    (rb_iter_advance w iter).2 < iter.size ∧
    (rb_iter_advance w iter).2 = (rb_iter_advance w iter).1.index := by
  have h2 : 2 ≤ 2 ^ w := by
    have hle : 2 ^ 1 ≤ 2 ^ w := Nat.pow_le_pow_right (by omega) (by omega)
    simpa using hle
  have hsteps : (rb_iter_advance w iter).1.steps = 2 ^ w - 1 := by
    have hlt : 2 ^ w - 1 < 2 ^ w := by omega
    rw [advance_steps, h0, Nat.zero_add, Nat.mod_eq_of_lt hlt]
  refine ⟨hsteps, ?_, ?_, advance_ret w iter⟩
  · simp only [rb_iter_done, hsteps, beq_eq_false_iff_ne, ne_eq]
    omega
  · rw [advance_ret]
    exact advance_index_lt w iter hs hi

/-- Witness for C10: an exhausted width-8 walker (capacity 5, position 2)
advanced once shows 255 remaining, reads as not exhausted, and returns an
in-range index. -/
theorem rb_iter_advance_exhausted_wraps_witness :
    (rb_iter_advance 8 ⟨RbIterMode.oldToNew, 2, 5, 0⟩).1.steps
      = 2 ^ 8 - 1 ∧
    rb_iter_done (rb_iter_advance 8 ⟨RbIterMode.oldToNew, 2, 5, 0⟩).1
      = false ∧
    (rb_iter_advance 8 ⟨RbIterMode.oldToNew, 2, 5, 0⟩).2 <
      (⟨RbIterMode.oldToNew, 2, 5, 0⟩ : RbIter).size ∧
    (rb_iter_advance 8 ⟨RbIterMode.oldToNew, 2, 5, 0⟩).2 =
      (rb_iter_advance 8 ⟨RbIterMode.oldToNew, 2, 5, 0⟩).1.index :=
  rb_iter_advance_exhausted_wraps 8 ⟨RbIterMode.oldToNew, 2, 5, 0⟩
    (by decide) (by decide) (by decide) (by decide)

end Ufw
